import Mathlib

/-!
Uncapacitated Facility Location (`ILOG/UFL_ALTERNATE.cpp`).

A shallow embedding of the input normalisation (`iterateFile`, `parseFile`, the
file handling at the start of `main`) and of the model construction in `main`
(variables, objective, constraints, the conversion that relaxes `y`).

* `std::string` is `List Char`; a file system is a map from path to content.
* `IloNum` values are elements of an arbitrary linearly ordered field `K`
  (instantiated with `ℚ` for concrete instances).
* The source does not check its indices. Where an index lies outside its array the
  source defines no behaviour; the model then gives no value (`none`) and describes the
  run no further. This is not a failure that the program raises, and nothing is stated
  about such runs.
-/

set_option autoImplicit false

namespace UFL

/-! ## Text: `std::string`, `std::getline`, `find_last_of`, `substr` -/

/-- The value `std::string::npos`, the largest `size_t` (64 bit). -/
def npos : Nat := 2 ^ 64 - 1

/-- Position of the last occurrence of `c` in `s`, when there is one. -/
def rfind? (c : Char) : List Char → Option Nat
  | [] => none
  | x :: xs =>
    match rfind? c xs with
    | some i => some (i + 1)
    | none => if x = c then some 0 else none

/-- The call `s.find_last_of(c)` for a one-character set: the position of the last
occurrence of `c`, or `npos` when `s` does not contain it. -/
def find_last_of (s : List Char) (c : Char) : Nat :=
  (rfind? c s).getD npos

/-- The call `s.substr(pos, count)`: at most `count` characters starting at `pos`. -/
def substr (s : List Char) (pos count : Nat) : List Char :=
  (s.drop pos).take count

/-- The successive results of `std::getline(in, str)` on a stream holding `content`:
the text is cut at every newline, and a last piece that is not ended by a newline is
a line as well unless it is empty. -/
def getlines : List Char → List (List Char)
  | [] => []
  | c :: cs =>
    if c = '\n' then [] :: getlines cs
    else
      match getlines cs with
      | [] => [[c]]
      | l :: ls => (c :: l) :: ls

/-! ## Files -/

/-- A file system: the content of the file at each path, `none` where there is no file. -/
abbrev FileSystem := String → Option (List Char)

/-- Writing `content` as the whole file at `path`. -/
def FileSystem.write (fs : FileSystem) (path : String) (content : List Char) : FileSystem :=
  fun p => if p = path then some content else fs p

/-- The content of the file at `path` after an `ofstream` opened with `fstream::app`
has written `text` and was closed: the file is created when missing, and what it held
is kept in front of the new text. -/
def FileSystem.append (fs : FileSystem) (path : String) (text : List Char) : FileSystem :=
  fs.write path ((fs path).getD [] ++ text)

/-- The function `iterateFile` with the callback of `main` (push the line onto
`vecOfStr`): `none` is the `false` result for a file that cannot be opened, otherwise the
lines handed to the callback, which are the non-blank lines in file order. -/
def iterateFile (fs : FileSystem) (fileName : String) : Option (List (List Char)) :=
  match fs fileName with
  | none => none
  | some content => some ((getlines content).filter (fun str => str ≠ []))

/-! ## `parseFile` and the start of `main` -/

/-- The element `vecOfStr[i]` for an `int` index inside the vector. The `operator[]` of
the source checks nothing: for an index that is negative or not below the size the source
defines no behaviour, and the model gives no element there (`none`), which ends what the
model says about the run and is not an error of the program. -/
def vecAt (vecOfStr : List (List Char)) (i : Int) : Option (List Char) :=
  if 0 ≤ i then vecOfStr[i.toNat]? else none

/-- What one pass of the loop body of `parseFile` writes for the line `line`. -/
def rowText (line : List Char) : List Char :=
  '\n' :: '[' :: substr line 0 (find_last_of line ',') ++ [']', ',']

/-- The text that `parseFile` writes to `tempFile`, in the order of the `<<` calls; the
loop `for (int i = 1; i < length - 2; i++)` visits `i = 1, ..., length - 3`. All
indices lie inside the vector when it has two or more lines; for fewer lines the source
defines no behaviour and the model gives no text. The `int length` holds the size of the
vector, which is taken to be one an `int` can hold. -/
def parseFileText (vecOfStr : List (List Char)) : Option (List Char) := do
  let length : Int := vecOfStr.length
  let first ← vecAt vecOfStr 0
  let rows ← (List.range' 1 (length - 2 - 1).toNat).foldlM
    (fun out (i : Nat) => do
      let line ← vecAt vecOfStr (i : Int)
      pure (out ++ rowText line))
    first
  let beforeLast ← vecAt vecOfStr (length - 2)
  let last ← vecAt vecOfStr (length - 1)
  pure (rows ++ ('\n' :: '[' :: beforeLast ++ [']']) ++ ('\n' :: last))

/-- How the model of the part of a run that loads the data can end without a stream. -/
inductive LoadError
  /-- The `throw(-1)` after "No such file". -/
  | noSuchFile (name : String)
  /-- Not an error of the program: `parseFile` used an index outside `vecOfStr`, the
  source defines no behaviour for the rest of the run, and the model stops here. -/
  | undefinedBehaviour
  deriving DecidableEq, Repr

/-- The function `parseFile`: the text is appended to `temp.txt`, then the file at
`argv[1]` (when `argc >= 2`) or else `temp.txt` is opened for reading. The result is the
content of the stream returned and the file system left behind. -/
def parseFile (fs : FileSystem) (vecOfStr : List (List Char)) (argv1 : Option String) :
    Except LoadError (List Char × FileSystem) :=
  match parseFileText vecOfStr with
  | none => .error .undefinedBehaviour
  | some text =>
    let fs1 := fs.append "temp.txt" text
    let filename1 := argv1.getD "temp.txt"
    match fs1 filename1 with
    | none => .error (.noSuchFile filename1)
    | some content => .ok (content, fs1)

/-- The start of `main`, up to the stream `file1` that `file1 >> d >> c >> f` reads:
`argv1` is the path argument when one is given. The file at the chosen path is opened
only to see that it exists; the lines are read by `iterateFile("UFL.dat", ...)`, whose
result `res` is not looked at. -/
def mainLoad (fs : FileSystem) (argv1 : Option String) :
    Except LoadError (List Char × FileSystem) :=
  let filename := argv1.getD "UFL.dat"
  match fs filename with
  | none => .error (.noSuchFile filename)
  | some _ =>
    let vecOfStr := (iterateFile fs "UFL.dat").getD []
    parseFile fs vecOfStr argv1

/-- The stream a run ends up reading, when it gets that far. -/
def streamRead (r : Except LoadError (List Char × FileSystem)) : Option (List Char) :=
  match r with
  | .ok (content, _) => some content
  | .error _ => none

/-- The part of a matrix row that `parseFile` keeps. -/
def keptPart (line : List Char) : List Char :=
  substr line 0 (find_last_of line ',')

/-! ### File systems of the examples -/

/-- A file system holding `UFL.dat` and a second data file. -/
def twoFiles : FileSystem := fun p =>
  if p = "UFL.dat" then some "[1]\n2,\n3\n[4]\n".toList
  else if p = "other.dat" then some "[7]\n8,\n9\n[6]\n".toList
  else none

/-- A file system holding `UFL.dat` and a `temp.txt` left behind. -/
def staleTemp : FileSystem := fun p =>
  if p = "UFL.dat" then some "[1]\n2,\n3\n[4]\n".toList
  else if p = "temp.txt" then some "[9]\n[[9]]\n[9]\n".toList
  else none

/-- A file system holding only `UFL.dat`, with two non-blank lines. -/
def twoLines : FileSystem := fun p =>
  if p = "UFL.dat" then some "[10,20]\n\n[5]\n".toList else none

/-! ## The two models built in `main` -/

section Models

variable {K : Type} [LinearOrderedField K]

/-- The decision variables by position: `x[p][q]` and `y[p]`. -/
inductive Var
  | x (p q : Nat)
  | y (p : Nat)
  deriving DecidableEq, Repr

/-- The variable types of the Concert library that the program uses. -/
inductive VarType
  | ILOFLOAT
  | ILOBOOL
  deriving DecidableEq, Repr

/-- A variable as created in the environment: its position, its bounds (`none` as upper
bound is `IloInfinity`) and its type. -/
structure IloNumVar (K : Type) where
  var : Var
  lb : K
  ub : Option K
  type : VarType

/-- The array `IloNumVarArray(env, n, lb, ub)` that becomes row `p` of `x`: `n`
continuous variables with the given bounds. -/
def IloNumVarArray (p n : Nat) (lb : K) (ub : Option K) : List (IloNumVar K) :=
  (List.range n).map fun q => ⟨Var.x p q, lb, ub, VarType.ILOFLOAT⟩

/-- The array `IloBoolVarArray(env, n)` added to `y`: `n` variables of type `ILOBOOL` with
bounds 0 and 1. -/
def IloBoolVarArray (n : Nat) : List (IloNumVar K) :=
  (List.range n).map fun p => ⟨Var.y p, 0, some 1, VarType.ILOBOOL⟩

/-- A linear expression: the terms `coefficient * variable` in the order of the `+=`. -/
abbrev IloExpr (K : Type) := List (K × Var)

/-- What the program adds to a model. -/
inductive IloExtractable (K : Type)
  /-- The objective `IloMinimize(env, expr)`. -/
  | IloMinimize (expr : IloExpr K)
  /-- The constraint `expr == rhs`. -/
  | eq (expr : IloExpr K) (rhs : K)
  /-- The constraint `v <= coef * w`. -/
  | le (v : Var) (coef : K) (w : Var)
  /-- The conversion `IloConversion(env, vars, type)`. -/
  | IloConversion (vars : List Var) (type : VarType)

/-- A model: what was added to it, in order. -/
abbrev IloModel (K : Type) := List (IloExtractable K)

/-- The variables and the two models at the end of the construction in `main`. -/
structure Models (K : Type) where
  x : List (List (IloNumVar K))
  y : List (IloNumVar K)
  mod : IloModel K
  modLP : IloModel K

/-- The loops `Cost += c[p][q] * x[p][q]` over `p` and `q`. -/
def costShipping (c : List (List K)) (n_p n_q : Nat) (Cost : IloExpr K) : Option (IloExpr K) :=
  (List.range n_p).foldlM (fun Cost p =>
    (List.range n_q).foldlM (fun Cost q => do
      let row ← (c)[p]?
      let cpq ← row[q]?
      pure (Cost ++ [(cpq, Var.x p q)])) Cost) Cost

/-- The loop `Cost += f[p] * y[p]` over `p`. -/
def costFixed (f : List K) (n_p : Nat) (Cost : IloExpr K) : Option (IloExpr K) :=
  (List.range n_p).foldlM (fun Cost p => do
    let fp ← f[p]?
    pure (Cost ++ [(fp, Var.y p)])) Cost

/-- The expression `demandConstraint` for client `q`: `x[p][q]` added for every `p`. -/
def demandExpr (n_p q : Nat) : IloExpr K :=
  (List.range n_p).foldl (fun demandConstraint p => demandConstraint ++ [(1, Var.x p q)]) []

/-- The loop over `q` that adds `demandConstraint == d[q]` to both models. -/
def addDemand (d : List K) (n_p n_q : Nat) (m : IloModel K × IloModel K) :
    Option (IloModel K × IloModel K) :=
  (List.range n_q).foldlM (fun m q => do
    let dq ← d[q]?
    pure (m.1 ++ [IloExtractable.eq (demandExpr n_p q) dq],
          m.2 ++ [IloExtractable.eq (demandExpr n_p q) dq])) m

/-- The loops over `p` and `q` that add `x[p][q] <= d[q] * y[p]` to both models. -/
def addLinking (d : List K) (n_p n_q : Nat) (m : IloModel K × IloModel K) :
    Option (IloModel K × IloModel K) :=
  (List.range n_p).foldlM (fun m p =>
    (List.range n_q).foldlM (fun m q => do
      let dq ← d[q]?
      pure (m.1 ++ [IloExtractable.le (Var.x p q) dq (Var.y p)],
            m.2 ++ [IloExtractable.le (Var.x p q) dq (Var.y p)])) m) m

/-- The construction of `mod` and `modLP` in `main` from the arrays `d`, `c` and `f` that
were read: where `c[p][q]` lies outside the matrix the source defines no behaviour and
the model gives no result. -/
def buildModels (d : List K) (c : List (List K)) (f : List K) : Option (Models K) := do
  let n_p := f.length
  let n_q := d.length
  let x := (List.range n_p).foldl (fun x p => x ++ [IloNumVarArray p n_q (0 : K) none]) []
  let y : List (IloNumVar K) := IloBoolVarArray n_p
  let Cost ← costShipping c n_p n_q []
  let Cost ← costFixed f n_p Cost
  let mod : IloModel K := [IloExtractable.IloMinimize Cost]
  let modLP : IloModel K := [IloExtractable.IloMinimize Cost]
  let m ← addDemand d n_p n_q (mod, modLP)
  let m ← addLinking d n_p n_q m
  pure ⟨x, y, m.1, m.2 ++ [IloExtractable.IloConversion (y.map (fun v => v.var)) VarType.ILOFLOAT]⟩

/-! ### What a model means -/

/-- The value of an expression at the point `σ`. -/
def IloExpr.eval (e : IloExpr K) (σ : Var → K) : K :=
  (e.map fun t => t.1 * σ t.2).sum

/-- The objective of a model: the first one added. -/
def IloModel.objective (m : IloModel K) : Option (IloExpr K) :=
  m.findSome? fun e =>
    match e with
    | IloExtractable.IloMinimize expr => some expr
    | _ => none

/-- The objective value of the model at the point `σ`. -/
def IloModel.objValue (m : IloModel K) (σ : Var → K) : K :=
  match m.objective with
  | some e => e.eval σ
  | none => 0

/-- The constraints of a model, in the order they were added. -/
def IloModel.constraints (m : IloModel K) : IloModel K :=
  m.filter fun e =>
    match e with
    | IloExtractable.eq _ _ => true
    | IloExtractable.le _ _ _ => true
    | _ => false

/-- The type a variable has in a model: the one a conversion of the model gives it, and
its own type when no conversion names it. -/
def IloModel.typeOf (m : IloModel K) (v : IloNumVar K) : VarType :=
  match m.findSome? (fun e =>
      match e with
      | IloExtractable.IloConversion vars t => if v.var ∈ vars then some t else none
      | _ => none) with
  | some t => t
  | none => v.type

/-- The values a variable of the given type may take. -/
def VarType.admits (t : VarType) (a : K) : Prop :=
  match t with
  | VarType.ILOFLOAT => True
  | VarType.ILOBOOL => a = 0 ∨ a = 1

/-- The point `σ` respects the bounds of `v` and the type `v` has in `m`. -/
def IloModel.varOk (m : IloModel K) (σ : Var → K) (v : IloNumVar K) : Prop :=
  v.lb ≤ σ v.var ∧
  (match v.ub with
   | none => True
   | some u => σ v.var ≤ u) ∧
  (m.typeOf v).admits (σ v.var)

/-- The point `σ` satisfies what was added to a model. -/
def IloExtractable.holds (σ : Var → K) : IloExtractable K → Prop
  | IloExtractable.IloMinimize _ => True
  | IloExtractable.eq expr rhs => expr.eval σ = rhs
  | IloExtractable.le v coef w => σ v ≤ coef * σ w
  | IloExtractable.IloConversion _ _ => True

/-- The point `σ` is feasible for the model `m` over the variables of `b`. -/
def Feasible (b : Models K) (m : IloModel K) (σ : Var → K) : Prop :=
  (∀ row ∈ b.x, ∀ v ∈ row, m.varOk σ v) ∧ (∀ v ∈ b.y, m.varOk σ v) ∧ ∀ e ∈ m, e.holds σ

/-- The point `σ` is an optimum of the model `m`: feasible, and no feasible point has a
smaller objective value. -/
def IsOptimum (b : Models K) (m : IloModel K) (σ : Var → K) : Prop :=
  Feasible b m σ ∧ ∀ τ, Feasible b m τ → m.objValue σ ≤ m.objValue τ

/-- The quotient printed as "Percentage Gap": no value when the objective value of the
integer model, by which the program divides, is zero (the division of the program then
gives an infinity or a NaN, not a number). -/
def percentageGap (mipObj lpObj : K) : Option K :=
  if mipObj = 0 then none else some (100 * (mipObj - lpObj) / mipObj)

/-! ### The model as the specification states it -/

/-- The entry `a[i]` of an array, 0 outside of it. -/
def numAt (a : List K) (i : Nat) : K := (a[i]?).getD 0

/-- The entry `c[p][q]` of the cost matrix, 0 outside of it. -/
def costAt (c : List (List K)) (p q : Nat) : K := (((c)[p]?).bind fun row => row[q]?).getD 0

/-- The shape of a problem instance: `c` has one row per entry of `f`, each with one
entry per entry of `d`. -/
def WellShaped (d : List K) (c : List (List K)) (f : List K) : Prop :=
  c.length = f.length ∧ ∀ row ∈ c, row.length = d.length

/-- The objective of the specification:
`Σ_p Σ_q cost[p][q]·x[p][q] + Σ_p fixedCost[p]·y[p]`. -/
def specObjective (d : List K) (c : List (List K)) (f : List K) (σ : Var → K) : K :=
  (∑ p in Finset.range f.length, ∑ q in Finset.range d.length, costAt c p q * σ (Var.x p q))
    + ∑ p in Finset.range f.length, numAt f p * σ (Var.y p)

/-- Feasibility as the specification states it: demand coverage, linking, `x ≥ 0`, and
`y` binary (`integer = true`) or in the interval [0,1] (`integer = false`). -/
def SpecFeasible (integer : Bool) (d : List K) (n_p : Nat) (σ : Var → K) : Prop :=
  (∀ q, q < d.length → ∑ p in Finset.range n_p, σ (Var.x p q) = numAt d q) ∧
  (∀ p q, p < n_p → q < d.length → σ (Var.x p q) ≤ numAt d q * σ (Var.y p)) ∧
  (∀ p q, p < n_p → q < d.length → 0 ≤ σ (Var.x p q)) ∧
  (∀ p, p < n_p →
    if integer then σ (Var.y p) = 0 ∨ σ (Var.y p) = 1 else 0 ≤ σ (Var.y p) ∧ σ (Var.y p) ≤ 1)

/-! ### The result of the construction in closed form -/

/-- The terms of the objective. -/
def costTerms (d : List K) (c : List (List K)) (f : List K) : IloExpr K :=
  ((List.range f.length).map fun p =>
      (List.range d.length).map fun q => (costAt c p q, Var.x p q)).flatten
    ++ (List.range f.length).map fun p => (numAt f p, Var.y p)

/-- The demand constraints, one per client. -/
def demandRows (d : List K) (n_p : Nat) : IloModel K :=
  (List.range d.length).map fun q =>
    IloExtractable.eq ((List.range n_p).map fun p => ((1 : K), Var.x p q)) (numAt d q)

/-- The linking constraints, one per facility and client. -/
def linkRows (d : List K) (n_p : Nat) : IloModel K :=
  ((List.range n_p).map fun p =>
    (List.range d.length).map fun q =>
      IloExtractable.le (Var.x p q) (numAt d q) (Var.y p)).flatten

/-- The variables and models that `buildModels` returns for a well-shaped instance. -/
def builtModels (d : List K) (c : List (List K)) (f : List K) : Models K where
  x := (List.range f.length).map fun p => IloNumVarArray p d.length (0 : K) none
  y := IloBoolVarArray f.length
  mod := IloExtractable.IloMinimize (costTerms d c f) :: (demandRows d f.length ++ linkRows d f.length)
  modLP := IloExtractable.IloMinimize (costTerms d c f) :: (demandRows d f.length ++ linkRows d f.length)
    ++ [IloExtractable.IloConversion ((List.range f.length).map Var.y) VarType.ILOFLOAT]

/-! ### Points and instances of the examples -/

/-- The point that opens the single facility and ships 10 and 20 from it. -/
def onlyPoint (K : Type) [LinearOrderedField K] : Var → K
  | Var.x _ 0 => 10
  | Var.x _ _ => 20
  | Var.y _ => 1

/-- The demands of an instance with two clients. -/
def demoDemand : List ℚ := [10, 20]

/-- The costs of one facility for the two clients. -/
def demoCost : List (List ℚ) := [[1, 1]]

/-- The fixed cost of the one facility. -/
def demoFixed : List ℚ := [5]

/-- The costs of two facilities for the two clients, the first one cheaper. -/
def pairCost : List (List ℚ) := [[1, 1], [2, 3]]

/-- The fixed costs of the two facilities, the first one cheaper. -/
def pairFixed : List ℚ := [5, 7]

/-- The point that serves every client from facility `A` alone. -/
def serveFrom (d : List K) (A : Nat) : Var → K
  | Var.x p q => if p = A then numAt d q else 0
  | Var.y p => if p = A then 1 else 0

end Models

/-- Demands of an instance with three clients. -/
def gapDemand : List ℚ := [1, 1, 1]

/-- Costs of three facilities, cheaper for the two clients with another index. -/
def gapCost : List (List ℚ) := [[0, -1, -1], [-1, 0, -1], [-1, -1, 0]]

/-- Fixed costs of the three facilities. -/
def gapFixed : List ℚ := [1, 1, 1]

/-- The point that opens facility 0 alone and serves the three clients from it. -/
def gapIntegerPoint : Var → ℚ
  | Var.x p _ => if p = 0 then 1 else 0
  | Var.y p => if p = 0 then 1 else 0

/-- The point that opens every facility by half and serves every client by half from
each of the two facilities with another index. -/
def gapRelaxedPoint : Var → ℚ
  | Var.x p q => if p = q then 0 else 1 / 2
  | Var.y _ => 1 / 2

/-! ## Facts about the text functions -/

theorem rfind?_eq_none {c : Char} {s : List Char} (h : c ∉ s) : rfind? c s = none := by
  induction s with
  | nil => rfl
  | cons x xs ih =>
    simp only [List.mem_cons, not_or] at h
    have hx : ¬ x = c := fun e => h.1 e.symm
    simp [rfind?, ih h.2, hx]

theorem rfind?_eq_some {c : Char} {s : List Char} (h : c ∈ s) :
    ∃ pre suf, s = pre ++ c :: suf ∧ c ∉ suf ∧ rfind? c s = some pre.length := by
  induction s with
  | nil => simp at h
  | cons x xs ih =>
    by_cases hxs : c ∈ xs
    · obtain ⟨pre, suf, e, hn, hr⟩ := ih hxs
      exact ⟨x :: pre, suf, by simp [e], hn, by simp [rfind?, hr]⟩
    · have hx : x = c := by
        rcases List.mem_cons.1 h with h1 | h1
        · exact h1.symm
        · exact absurd h1 hxs
      exact ⟨[], xs, by simp [hx], hxs, by simp [rfind?, rfind?_eq_none hxs, hx]⟩

/-- A line that contains a comma is cut just before its last comma. -/
theorem rowText_of_mem {line : List Char} (h : ',' ∈ line) :
    ∃ pre suf, line = pre ++ ',' :: suf ∧ ',' ∉ suf ∧
      rowText line = '\n' :: '[' :: pre ++ [']', ','] := by
  obtain ⟨pre, suf, e, hn, hr⟩ := rfind?_eq_some h
  refine ⟨pre, suf, e, hn, ?_⟩
  simp only [rowText, substr, find_last_of, hr, Option.getD_some, List.drop_zero]
  simp [e]

theorem vecAt_natCast (L : List (List Char)) (i : Nat) : vecAt L (i : Int) = L[i]? := by
  simp [vecAt]

/-- The loop of `parseFile` over `i = 1, ..., k` when all these indices are in range. -/
theorem parseFile_loop (L : List (List Char)) (out : List Char) (k : Nat)
    (hk : k + 1 ≤ L.length) :
    (List.range' 1 k).foldlM
      (fun out (i : Nat) => do
        let line ← vecAt L (i : Int)
        pure (out ++ rowText line)) out
      = some (out ++ (((L.drop 1).take k).map rowText).flatten) := by
  induction k with
  | zero => simp
  | succ k ih =>
    have hlt : 1 + k < L.length := by omega
    obtain ⟨a, hget⟩ : ∃ a, L[1 + k]? = some a :=
      ⟨_, List.getElem?_eq_getElem hlt⟩
    have htake : (L.drop 1).take (k + 1) = (L.drop 1).take k ++ [a] := by
      rw [List.take_succ, List.getElem?_drop, hget]
      simp
    rw [List.range'_concat, List.foldlM_append, ih (by omega), htake]
    simp [vecAt_natCast, hget]

/-- The text written by `parseFile` for a vector of at least two lines. -/
theorem parseFileText_eq (L : List (List Char)) (h2 : 2 ≤ L.length) :
    parseFileText L = some (L.getD 0 [] ++ (((L.drop 1).take (L.length - 3)).map rowText).flatten
      ++ ('\n' :: '[' :: L.getD (L.length - 2) [] ++ [']'])
      ++ ('\n' :: L.getD (L.length - 1) [])) := by
  have h0 : vecAt L 0 = some (L.getD 0 []) := by
    have := vecAt_natCast L 0
    simp only [Nat.cast_zero] at this
    rw [this, List.getD_eq_getElem?_getD, List.getElem?_eq_getElem (by omega)]
    simp
  have h1 : vecAt L ((L.length : Int) - 2) = some (L.getD (L.length - 2) []) := by
    have e : ((L.length : Int) - 2) = ((L.length - 2 : Nat) : Int) := by omega
    rw [e, vecAt_natCast, List.getD_eq_getElem?_getD, List.getElem?_eq_getElem (by omega)]
    simp
  have h3 : vecAt L ((L.length : Int) - 1) = some (L.getD (L.length - 1) []) := by
    have e : ((L.length : Int) - 1) = ((L.length - 1 : Nat) : Int) := by omega
    rw [e, vecAt_natCast, List.getD_eq_getElem?_getD, List.getElem?_eq_getElem (by omega)]
    simp
  have hk : ((L.length : Int) - 2 - 1).toNat = L.length - 3 := by omega
  have hl := parseFile_loop L (L.getD 0 []) (L.length - 3) (by omega)
  unfold parseFileText
  simp only [h0, h1, h3, hk, Option.bind_eq_bind, Option.some_bind] at hl ⊢
  rw [hl]
  simp

theorem getlines_no_newline (content : List Char) :
    ∀ line ∈ getlines content, '\n' ∉ line := by
  induction content with
  | nil => simp [getlines]
  | cons c cs ih =>
    intro line hline
    unfold getlines at hline
    by_cases hc : c = '\n'
    · simp only [hc, if_true, List.mem_cons] at hline
      rcases hline with rfl | hline
      · simp
      · exact ih line hline
    · simp only [hc, if_false] at hline
      cases hg : getlines cs with
      | nil =>
        simp only [hg, List.mem_singleton] at hline
        subst hline
        simpa using fun e => hc e.symm
      | cons l ls =>
        simp only [hg, List.mem_cons] at hline
        rcases hline with rfl | hline
        · have hl := ih l (by simp [hg])
          simp only [List.mem_cons, not_or]
          exact ⟨fun e => hc e.symm, hl⟩
        · exact ih line (by simp [hg, hline])

/-! ## Facts about the loops -/

theorem foldlM_range_eq_some {β : Type} (n : Nat) (step : β → Nat → Option β)
    (F : β → Nat → β) (h : ∀ s i, i < n → step s i = some (F s i)) (init : β) :
    (List.range n).foldlM step init = some ((List.range n).foldl F init) := by
  induction n with
  | zero => simp
  | succ n ih =>
    rw [List.range_succ, List.foldlM_append, ih (fun s i hi => h s i (by omega))]
    simp [List.foldl_append, h _ n (by omega)]

theorem foldl_append_range {α : Type} (n : Nat) (g : Nat → List α) (init : List α) :
    (List.range n).foldl (fun s i => s ++ g i) init
      = init ++ ((List.range n).map g).flatten := by
  induction n with
  | zero => simp
  | succ n ih => simp [List.range_succ, List.foldl_append, ih]

theorem foldl_concat_range {α : Type} (n : Nat) (g : Nat → α) (init : List α) :
    (List.range n).foldl (fun s i => s ++ [g i]) init = init ++ (List.range n).map g := by
  induction n with
  | zero => simp
  | succ n ih => simp [List.range_succ, List.foldl_append, ih]

theorem foldl_append_pair_range {α : Type} (n : Nat) (g : Nat → List α)
    (init : List α × List α) :
    (List.range n).foldl (fun s i => (s.1 ++ g i, s.2 ++ g i)) init
      = (init.1 ++ ((List.range n).map g).flatten,
         init.2 ++ ((List.range n).map g).flatten) := by
  induction n with
  | zero => simp
  | succ n ih => simp [List.range_succ, List.foldl_append, ih]

theorem flatten_map_singleton_range {α : Type} (n : Nat) (g : Nat → α) :
    ((List.range n).map fun i => [g i]).flatten = (List.range n).map g := by
  induction n with
  | zero => simp
  | succ n ih => simp [List.range_succ, ih]

theorem sum_map_range {K : Type} [AddCommMonoid K] (n : Nat) (g : Nat → K) :
    ((List.range n).map g).sum = ∑ i in Finset.range n, g i := by
  induction n with
  | zero => simp
  | succ n ih => simp [List.range_succ, Finset.sum_range_succ, ih]

theorem sum_two {M : Type} [AddCommMonoid M] (g : Nat → M) (A B : Nat) (hA : A < 2)
    (hB : B < 2) (hAB : A ≠ B) : ∑ p in Finset.range 2, g p = g A + g B := by
  interval_cases A <;> interval_cases B
  · exact absurd rfl hAB
  · simp [Finset.sum_range_succ]
  · rw [add_comm]
    simp [Finset.sum_range_succ]
  · exact absurd rfl hAB

section ModelFacts

variable {K : Type} [LinearOrderedField K]

theorem numAt_of_lt {a : List K} {i : Nat} (h : i < a.length) : a[i]? = some (numAt a i) := by
  simp [numAt, List.getElem?_eq_getElem h]

theorem costAt_of_lt {d : List K} {c : List (List K)} {f : List K} (hs : WellShaped d c f)
    {p q : Nat} (hp : p < f.length) (hq : q < d.length) :
    ∃ row, (c)[p]? = some row ∧ row[q]? = some (costAt c p q) := by
  have hpc : p < c.length := by rw [hs.1]; exact hp
  have hrow : ((c)[p]).length = d.length := hs.2 _ (List.getElem_mem hpc)
  have hq2 : q < ((c)[p]).length := by rw [hrow]; exact hq
  refine ⟨(c)[p], List.getElem?_eq_getElem hpc, ?_⟩
  simp [costAt, List.getElem?_eq_getElem hpc, List.getElem?_eq_getElem hq2]

theorem costShipping_eq {d : List K} {c : List (List K)} {f : List K}
    (hs : WellShaped d c f) (Cost : IloExpr K) :
    costShipping c f.length d.length Cost
      = some (Cost ++ ((List.range f.length).map fun p =>
          (List.range d.length).map fun q => (costAt c p q, Var.x p q)).flatten) := by
  unfold costShipping
  rw [foldlM_range_eq_some f.length _
    (fun s p => s ++ (List.range d.length).map fun q => (costAt c p q, Var.x p q))]
  · rw [foldl_append_range]
  · intro s p hp
    rw [foldlM_range_eq_some d.length _ (fun s q => s ++ [(costAt c p q, Var.x p q)])]
    · rw [foldl_concat_range]
    · intro s q hq
      obtain ⟨row, h1, h2⟩ := costAt_of_lt hs hp hq
      simp [h1, h2]

theorem costFixed_eq (f : List K) (Cost : IloExpr K) :
    costFixed f f.length Cost
      = some (Cost ++ (List.range f.length).map fun p => (numAt f p, Var.y p)) := by
  unfold costFixed
  rw [foldlM_range_eq_some f.length _ (fun s p => s ++ [(numAt f p, Var.y p)])]
  · rw [foldl_concat_range]
  · intro s p hp
    simp [numAt_of_lt hp]

theorem demandExpr_eq (n_p q : Nat) :
    (demandExpr n_p q : IloExpr K) = (List.range n_p).map fun p => ((1 : K), Var.x p q) := by
  unfold demandExpr
  rw [foldl_concat_range]
  simp

theorem addDemand_eq (d : List K) (n_p : Nat) (m : IloModel K × IloModel K) :
    addDemand d n_p d.length m = some (m.1 ++ demandRows d n_p, m.2 ++ demandRows d n_p) := by
  unfold addDemand
  rw [foldlM_range_eq_some d.length _ (fun s q =>
    (s.1 ++ [IloExtractable.eq ((List.range n_p).map fun p => ((1 : K), Var.x p q)) (numAt d q)],
     s.2 ++ [IloExtractable.eq ((List.range n_p).map fun p => ((1 : K), Var.x p q)) (numAt d q)]))]
  · rw [foldl_append_pair_range, flatten_map_singleton_range]
    rfl
  · intro s q hq
    simp [numAt_of_lt hq, demandExpr_eq]

theorem addLinking_eq (d : List K) (n_p : Nat) (m : IloModel K × IloModel K) :
    addLinking d n_p d.length m = some (m.1 ++ linkRows d n_p, m.2 ++ linkRows d n_p) := by
  unfold addLinking
  rw [foldlM_range_eq_some n_p _ (fun s p =>
    (s.1 ++ (List.range d.length).map fun q => IloExtractable.le (Var.x p q) (numAt d q) (Var.y p),
     s.2 ++ (List.range d.length).map fun q => IloExtractable.le (Var.x p q) (numAt d q) (Var.y p)))]
  · rw [foldl_append_pair_range]
    rfl
  · intro s p _
    rw [foldlM_range_eq_some d.length _ (fun s q =>
      (s.1 ++ [IloExtractable.le (Var.x p q) (numAt d q) (Var.y p)],
       s.2 ++ [IloExtractable.le (Var.x p q) (numAt d q) (Var.y p)]))]
    · rw [foldl_append_pair_range, flatten_map_singleton_range]
    · intro s q hq
      simp [numAt_of_lt hq]

theorem buildModels_eq {d : List K} {c : List (List K)} {f : List K} (hs : WellShaped d c f) :
    buildModels d c f = some (builtModels d c f) := by
  unfold buildModels
  simp only [costShipping_eq hs, costFixed_eq, addDemand_eq, addLinking_eq,
    Option.bind_eq_bind, Option.some_bind, Option.pure_def, foldl_concat_range]
  simp [builtModels, costTerms, IloBoolVarArray, Function.comp_def]

/-! ### The meaning of the models built -/

theorem eval_append (a b : IloExpr K) (σ : Var → K) :
    IloExpr.eval (a ++ b) σ = IloExpr.eval a σ + IloExpr.eval b σ := by
  simp [IloExpr.eval]

theorem eval_map_range (n : Nat) (a : Nat → K) (v : Nat → Var) (σ : Var → K) :
    IloExpr.eval ((List.range n).map fun i => (a i, v i)) σ
      = ∑ i in Finset.range n, a i * σ (v i) := by
  unfold IloExpr.eval
  rw [List.map_map, sum_map_range]
  rfl

theorem eval_flatten_range (n : Nat) (G : Nat → IloExpr K) (σ : Var → K) :
    IloExpr.eval (((List.range n).map G).flatten) σ
      = ∑ i in Finset.range n, IloExpr.eval (G i) σ := by
  induction n with
  | zero => simp [IloExpr.eval]
  | succ n ih =>
    rw [List.range_succ, List.map_append, List.flatten_append, eval_append, ih,
      Finset.sum_range_succ]
    simp [IloExpr.eval]

theorem eval_costTerms (d : List K) (c : List (List K)) (f : List K) (σ : Var → K) :
    IloExpr.eval (costTerms d c f) σ = specObjective d c f σ := by
  unfold costTerms specObjective
  rw [eval_append, eval_flatten_range, eval_map_range]
  congr 1
  exact Finset.sum_congr rfl fun p _ => eval_map_range _ _ _ σ

theorem objective_mod (d : List K) (c : List (List K)) (f : List K) :
    (builtModels d c f).mod.objective = some (costTerms d c f) := by
  simp [builtModels, IloModel.objective]

theorem objective_modLP (d : List K) (c : List (List K)) (f : List K) :
    (builtModels d c f).modLP.objective = some (costTerms d c f) := by
  simp [builtModels, IloModel.objective]

theorem objValue_mod (d : List K) (c : List (List K)) (f : List K) (σ : Var → K) :
    (builtModels d c f).mod.objValue σ = specObjective d c f σ := by
  simp [IloModel.objValue, objective_mod, eval_costTerms]

theorem objValue_modLP (d : List K) (c : List (List K)) (f : List K) (σ : Var → K) :
    (builtModels d c f).modLP.objValue σ = specObjective d c f σ := by
  simp [IloModel.objValue, objective_modLP, eval_costTerms]

theorem mem_rows {d : List K} {n_p : Nat} {e : IloExtractable K}
    (h : e ∈ demandRows d n_p ++ linkRows d n_p) :
    (∃ q, q < d.length ∧
        e = IloExtractable.eq ((List.range n_p).map fun p => ((1 : K), Var.x p q)) (numAt d q)) ∨
    (∃ p q, p < n_p ∧ q < d.length ∧ e = IloExtractable.le (Var.x p q) (numAt d q) (Var.y p)) := by
  rcases List.mem_append.1 h with h | h
  · left
    obtain ⟨q, hq, rfl⟩ := List.mem_map.1 h
    exact ⟨q, List.mem_range.1 hq, rfl⟩
  · right
    obtain ⟨l, hl, hel⟩ := List.mem_flatten.1 h
    obtain ⟨p, hp, rfl⟩ := List.mem_map.1 hl
    obtain ⟨q, hq, rfl⟩ := List.mem_map.1 hel
    exact ⟨p, q, List.mem_range.1 hp, List.mem_range.1 hq, rfl⟩

theorem rows_hold_iff (d : List K) (n_p : Nat) (σ : Var → K) :
    (∀ e ∈ demandRows d n_p ++ linkRows d n_p, IloExtractable.holds σ e) ↔
      (∀ q, q < d.length → ∑ p in Finset.range n_p, σ (Var.x p q) = numAt d q) ∧
      (∀ p q, p < n_p → q < d.length → σ (Var.x p q) ≤ numAt d q * σ (Var.y p)) := by
  constructor
  · intro h
    refine ⟨fun q hq => ?_, fun p q hp hq => ?_⟩
    · have := h (IloExtractable.eq ((List.range n_p).map fun p => ((1 : K), Var.x p q)) (numAt d q))
        (List.mem_append_left _ (List.mem_map.2 ⟨q, List.mem_range.2 hq, rfl⟩))
      simpa [IloExtractable.holds, eval_map_range] using this
    · exact h (IloExtractable.le (Var.x p q) (numAt d q) (Var.y p))
        (List.mem_append_right _ (List.mem_flatten.2
          ⟨_, List.mem_map.2 ⟨p, List.mem_range.2 hp, rfl⟩,
            List.mem_map.2 ⟨q, List.mem_range.2 hq, rfl⟩⟩))
  · rintro ⟨h1, h2⟩ e he
    rcases mem_rows he with ⟨q, hq, rfl⟩ | ⟨p, q, hp, hq, rfl⟩
    · simpa [IloExtractable.holds, eval_map_range] using h1 q hq
    · exact h2 p q hp hq

theorem typeOf_mod (d : List K) (c : List (List K)) (f : List K) (v : IloNumVar K) :
    (builtModels d c f).mod.typeOf v = v.type := by
  have : (builtModels d c f).mod.findSome? (fun e =>
      match e with
      | IloExtractable.IloConversion vars t => if v.var ∈ vars then some t else none
      | _ => none) = none := by
    rw [List.findSome?_eq_none_iff]
    intro e he
    rcases List.mem_cons.1 he with rfl | he
    · rfl
    · rcases mem_rows he with ⟨q, _, rfl⟩ | ⟨p, q, _, _, rfl⟩ <;> rfl
  simp only [IloModel.typeOf, this]

theorem typeOf_modLP (d : List K) (c : List (List K)) (f : List K) (v : IloNumVar K) :
    (builtModels d c f).modLP.typeOf v
      = if v.var ∈ (List.range f.length).map Var.y then VarType.ILOFLOAT else v.type := by
  have h := typeOf_mod d c f v
  have hnone : (builtModels d c f).mod.findSome? (fun e =>
      match e with
      | IloExtractable.IloConversion vars t => if v.var ∈ vars then some t else none
      | _ => none) = none := by
    rw [List.findSome?_eq_none_iff]
    intro e he
    rcases List.mem_cons.1 he with rfl | he
    · rfl
    · rcases mem_rows he with ⟨q, _, rfl⟩ | ⟨p, q, _, _, rfl⟩ <;> rfl
  have hLP : (builtModels d c f).modLP = (builtModels d c f).mod
      ++ [IloExtractable.IloConversion ((List.range f.length).map Var.y) VarType.ILOFLOAT] := rfl
  unfold IloModel.typeOf
  rw [hLP, List.findSome?_append, hnone]
  by_cases hv : v.var ∈ (List.range f.length).map Var.y
  · simp [hv]
  · simp [hv]

theorem xVars_ok_iff (d : List K) (c : List (List K)) (f : List K) (m : IloModel K)
    (hm : ∀ p q, m.typeOf (⟨Var.x p q, 0, none, VarType.ILOFLOAT⟩ : IloNumVar K) = VarType.ILOFLOAT)
    (σ : Var → K) :
    (∀ row ∈ (builtModels d c f).x, ∀ v ∈ row, m.varOk σ v) ↔
      ∀ p q, p < f.length → q < d.length → 0 ≤ σ (Var.x p q) := by
  constructor
  · intro h p q hp hq
    have := h (IloNumVarArray p d.length (0 : K) none)
      (List.mem_map.2 ⟨p, List.mem_range.2 hp, rfl⟩)
      ⟨Var.x p q, 0, none, VarType.ILOFLOAT⟩ (List.mem_map.2 ⟨q, List.mem_range.2 hq, rfl⟩)
    exact this.1
  · intro h row hrow v hv
    obtain ⟨p, hp, rfl⟩ := List.mem_map.1 hrow
    obtain ⟨q, hq, rfl⟩ := List.mem_map.1 hv
    exact ⟨h p q (List.mem_range.1 hp) (List.mem_range.1 hq), trivial, by
      rw [hm]; trivial⟩

theorem yVars_ok_iff (d : List K) (c : List (List K)) (f : List K) (m : IloModel K)
    (t : VarType)
    (hm : ∀ p, p < f.length →
      m.typeOf (⟨Var.y p, 0, some 1, VarType.ILOBOOL⟩ : IloNumVar K) = t)
    (σ : Var → K) :
    (∀ v ∈ (builtModels d c f).y, m.varOk σ v) ↔
      ∀ p, p < f.length → 0 ≤ σ (Var.y p) ∧ σ (Var.y p) ≤ 1 ∧ t.admits (σ (Var.y p)) := by
  constructor
  · intro h p hp
    have := h ⟨Var.y p, 0, some 1, VarType.ILOBOOL⟩ (List.mem_map.2 ⟨p, List.mem_range.2 hp, rfl⟩)
    rw [IloModel.varOk, hm p hp] at this
    exact this
  · intro h v hv
    obtain ⟨p, hp, rfl⟩ := List.mem_map.1 hv
    have := h p (List.mem_range.1 hp)
    rw [IloModel.varOk, hm p (List.mem_range.1 hp)]
    exact this

theorem feasible_mod_iff (d : List K) (c : List (List K)) (f : List K) (σ : Var → K) :
    Feasible (builtModels d c f) (builtModels d c f).mod σ ↔ SpecFeasible true d f.length σ := by
  unfold Feasible SpecFeasible
  rw [xVars_ok_iff d c f _ (fun p q => typeOf_mod d c f _) σ,
    yVars_ok_iff d c f _ VarType.ILOBOOL (fun p _ => typeOf_mod d c f _) σ]
  have hrows : (∀ e ∈ (builtModels d c f).mod, IloExtractable.holds σ e) ↔
      (∀ e ∈ demandRows d f.length ++ linkRows d f.length, IloExtractable.holds σ e) := by
    constructor
    · intro h e he
      exact h e (List.mem_cons_of_mem _ he)
    · intro h e he
      rcases List.mem_cons.1 he with rfl | he
      · trivial
      · exact h e he
  rw [hrows, rows_hold_iff]
  constructor
  · rintro ⟨hx, hy, h1, h2⟩
    exact ⟨h1, h2, hx, fun p hp => by simpa [VarType.admits] using (hy p hp).2.2⟩
  · rintro ⟨h1, h2, hx, hy⟩
    refine ⟨hx, fun p hp => ?_, h1, h2⟩
    have := hy p hp
    simp only [if_true] at this
    rcases this with h0 | h0
    · exact ⟨by rw [h0], by rw [h0]; exact zero_le_one, Or.inl h0⟩
    · exact ⟨by rw [h0]; exact zero_le_one, by rw [h0], Or.inr h0⟩

theorem feasible_modLP_iff (d : List K) (c : List (List K)) (f : List K) (σ : Var → K) :
    Feasible (builtModels d c f) (builtModels d c f).modLP σ
      ↔ SpecFeasible false d f.length σ := by
  unfold Feasible SpecFeasible
  rw [xVars_ok_iff d c f _ (fun p q => by rw [typeOf_modLP]; simp) σ,
    yVars_ok_iff d c f _ VarType.ILOFLOAT (fun p hp => by
      rw [typeOf_modLP]; simp [hp]) σ]
  have hrows : (∀ e ∈ (builtModels d c f).modLP, IloExtractable.holds σ e) ↔
      (∀ e ∈ demandRows d f.length ++ linkRows d f.length, IloExtractable.holds σ e) := by
    constructor
    · intro h e he
      exact h e (List.mem_append_left _ (List.mem_cons_of_mem _ he))
    · intro h e he
      rcases List.mem_append.1 he with he | he
      · rcases List.mem_cons.1 he with rfl | he
        · trivial
        · exact h e he
      · rw [List.mem_singleton] at he
        subst he
        trivial
  rw [hrows, rows_hold_iff]
  constructor
  · rintro ⟨hx, hy, h1, h2⟩
    exact ⟨h1, h2, hx, fun p hp => by simpa using ⟨(hy p hp).1, (hy p hp).2.1⟩⟩
  · rintro ⟨h1, h2, hx, hy⟩
    refine ⟨hx, fun p hp => ?_, h1, h2⟩
    have := hy p hp
    simp only [Bool.false_eq_true, if_false] at this
    exact ⟨this.1, this.2, trivial⟩

theorem filter_rows (d : List K) (n_p : Nat) :
    IloModel.constraints (demandRows d n_p ++ linkRows d n_p)
      = demandRows d n_p ++ linkRows d n_p := by
  unfold IloModel.constraints
  rw [List.filter_eq_self]
  intro e he
  rcases mem_rows he with ⟨q, _, rfl⟩ | ⟨p, q, _, _, rfl⟩ <;> rfl

theorem constraints_mod (d : List K) (c : List (List K)) (f : List K) :
    (builtModels d c f).mod.constraints = demandRows d f.length ++ linkRows d f.length := by
  have h := filter_rows d f.length
  unfold IloModel.constraints at h ⊢
  simp only [builtModels, List.filter_cons]
  exact h

theorem constraints_modLP (d : List K) (c : List (List K)) (f : List K) :
    (builtModels d c f).modLP.constraints = demandRows d f.length ++ linkRows d f.length := by
  have h := filter_rows d f.length
  unfold IloModel.constraints at h ⊢
  simp only [builtModels, List.cons_append, List.filter_cons, List.filter_append, h]
  simp

theorem specFeasible_relax {d : List K} {n_p : Nat} {σ : Var → K}
    (h : SpecFeasible true d n_p σ) : SpecFeasible false d n_p σ := by
  obtain ⟨h1, h2, h3, h4⟩ := h
  refine ⟨h1, h2, h3, fun p hp => ?_⟩
  have := h4 p hp
  simp only [if_true] at this
  simp only [Bool.false_eq_true, if_false]
  rcases this with h0 | h0 <;> rw [h0] <;> simp

theorem specFeasible_single (integer : Bool) (σ : Var → K) :
    SpecFeasible integer [(10 : K), 20] 1 σ ↔
      (σ (Var.y 0) = 1 ∧ σ (Var.x 0 0) = 10 ∧ σ (Var.x 0 1) = 20) := by
  constructor
  · rintro ⟨h1, h2, _, h4⟩
    have e0 := h1 0 (by simp)
    have e1 := h1 1 (by simp)
    have l0 := h2 0 0 (by simp) (by simp)
    have y0 := h4 0 (by simp)
    simp [numAt] at e0 e1 l0
    refine ⟨?_, e0, e1⟩
    rw [e0] at l0
    cases integer with
    | true =>
      simp only [if_true] at y0
      rcases y0 with y0 | y0
      · rw [y0] at l0
        norm_num at l0
      · exact y0
    | false =>
      simp only [Bool.false_eq_true, if_false] at y0
      have : (1 : K) ≤ σ (Var.y 0) := by linarith
      exact le_antisymm y0.2 this
  · rintro ⟨hy, hx0, hx1⟩
    refine ⟨?_, ?_, ?_, ?_⟩
    · intro q hq
      have hq2 : q < 2 := by simpa using hq
      interval_cases q <;> simp [numAt, hx0, hx1]
    · intro p q hp hq
      have hq2 : q < 2 := by simpa using hq
      have hp0 : p = 0 := by omega
      subst hp0
      interval_cases q <;> simp [numAt, hx0, hx1, hy]
    · intro p q hp hq
      have hq2 : q < 2 := by simpa using hq
      have hp0 : p = 0 := by omega
      subst hp0
      interval_cases q <;> simp [hx0, hx1]
    · intro p hp
      have hp0 : p = 0 := by omega
      subst hp0
      cases integer <;> simp [hy]

theorem specObjective_single (σ : Var → K)
    (h : σ (Var.y 0) = 1 ∧ σ (Var.x 0 0) = 10 ∧ σ (Var.x 0 1) = 20) :
    specObjective [(10 : K), 20] [[1, 1]] [5] σ = 35 := by
  obtain ⟨hy, hx0, hx1⟩ := h
  simp [specObjective, Finset.sum_range_succ, costAt, numAt, hy, hx0, hx1]
  norm_num

theorem serveFrom_feasible (d : List K) (c : List (List K)) (f : List K)
    (h2 : f.length = 2) (A B : Nat) (hA : A < 2) (hB : B < 2) (hAB : A ≠ B)
    (hd : ∀ q, q < d.length → 0 ≤ numAt d q) :
    Feasible (builtModels d c f) (builtModels d c f).mod (serveFrom d A) := by
  rw [feasible_mod_iff, h2]
  refine ⟨?_, ?_, ?_, ?_⟩
  · intro q _
    rw [sum_two _ A B hA hB hAB]
    simp [serveFrom, hAB.symm]
  · intro p q _ _
    by_cases hp : p = A <;> simp [serveFrom, hp]
  · intro p q _ hq
    by_cases hp : p = A
    · simpa [serveFrom, hp] using hd q hq
    · simp [serveFrom, hp]
  · intro p _
    by_cases hp : p = A <;> simp [serveFrom, hp]

end ModelFacts

/-! ### The instance with a negative gap -/

theorem gap_objective (σ : Var → ℚ) :
    specObjective gapDemand gapCost gapFixed σ
      = - σ (Var.x 0 1) - σ (Var.x 0 2) - σ (Var.x 1 0) - σ (Var.x 1 2)
        - σ (Var.x 2 0) - σ (Var.x 2 1)
        + σ (Var.y 0) + σ (Var.y 1) + σ (Var.y 2) := by
  simp [specObjective, gapDemand, gapCost, gapFixed, Finset.sum_range_succ, costAt, numAt]
  ring

theorem gap_feasible_iff (integer : Bool) (σ : Var → ℚ) :
    SpecFeasible integer gapDemand 3 σ ↔
      (σ (Var.x 0 0) + σ (Var.x 1 0) + σ (Var.x 2 0) = 1 ∧
       σ (Var.x 0 1) + σ (Var.x 1 1) + σ (Var.x 2 1) = 1 ∧
       σ (Var.x 0 2) + σ (Var.x 1 2) + σ (Var.x 2 2) = 1) ∧
      (∀ p q, p < 3 → q < 3 → σ (Var.x p q) ≤ σ (Var.y p)) ∧
      (∀ p q, p < 3 → q < 3 → 0 ≤ σ (Var.x p q)) ∧
      (∀ p, p < 3 →
        if integer then σ (Var.y p) = 0 ∨ σ (Var.y p) = 1
        else 0 ≤ σ (Var.y p) ∧ σ (Var.y p) ≤ 1) := by
  have hlen : gapDemand.length = 3 := rfl
  have hnum : ∀ q, q < 3 → numAt gapDemand q = 1 := by
    intro q hq
    interval_cases q <;> simp [numAt, gapDemand]
  unfold SpecFeasible
  rw [hlen]
  constructor
  · rintro ⟨h1, h2, h3, h4⟩
    refine ⟨⟨?_, ?_, ?_⟩, fun p q hp hq => ?_, h3, h4⟩
    · simpa [Finset.sum_range_succ, hnum] using h1 0 (by norm_num)
    · simpa [Finset.sum_range_succ, hnum] using h1 1 (by norm_num)
    · simpa [Finset.sum_range_succ, hnum] using h1 2 (by norm_num)
    · simpa [hnum q hq] using h2 p q hp hq
  · rintro ⟨⟨e0, e1, e2⟩, h2, h3, h4⟩
    refine ⟨fun q hq => ?_, fun p q hp hq => ?_, h3, h4⟩
    · interval_cases q <;> simp [Finset.sum_range_succ, hnum, e0, e1, e2]
    · simpa [hnum q hq] using h2 p q hp hq

theorem gap_relaxed_bound (σ : Var → ℚ) (h : SpecFeasible false gapDemand 3 σ) :
    -3 / 2 ≤ specObjective gapDemand gapCost gapFixed σ := by
  obtain ⟨⟨e0, e1, e2⟩, h2, h3, _⟩ := (gap_feasible_iff false σ).1 h
  rw [gap_objective]
  have a01 := h2 0 1 (by norm_num) (by norm_num)
  have a02 := h2 0 2 (by norm_num) (by norm_num)
  have a10 := h2 1 0 (by norm_num) (by norm_num)
  have a12 := h2 1 2 (by norm_num) (by norm_num)
  have a20 := h2 2 0 (by norm_num) (by norm_num)
  have a21 := h2 2 1 (by norm_num) (by norm_num)
  have b00 := h3 0 0 (by norm_num) (by norm_num)
  have b11 := h3 1 1 (by norm_num) (by norm_num)
  have b22 := h3 2 2 (by norm_num) (by norm_num)
  linarith

theorem gap_integer_bound (σ : Var → ℚ) (h : SpecFeasible true gapDemand 3 σ) :
    -1 ≤ specObjective gapDemand gapCost gapFixed σ := by
  obtain ⟨⟨e0, e1, e2⟩, h2, h3, h4⟩ := (gap_feasible_iff true σ).1 h
  rw [gap_objective]
  have a00 := h2 0 0 (by norm_num) (by norm_num)
  have a01 := h2 0 1 (by norm_num) (by norm_num)
  have a02 := h2 0 2 (by norm_num) (by norm_num)
  have a10 := h2 1 0 (by norm_num) (by norm_num)
  have a11 := h2 1 1 (by norm_num) (by norm_num)
  have a12 := h2 1 2 (by norm_num) (by norm_num)
  have a20 := h2 2 0 (by norm_num) (by norm_num)
  have a21 := h2 2 1 (by norm_num) (by norm_num)
  have a22 := h2 2 2 (by norm_num) (by norm_num)
  have b00 := h3 0 0 (by norm_num) (by norm_num)
  have b01 := h3 0 1 (by norm_num) (by norm_num)
  have b02 := h3 0 2 (by norm_num) (by norm_num)
  have b10 := h3 1 0 (by norm_num) (by norm_num)
  have b11 := h3 1 1 (by norm_num) (by norm_num)
  have b12 := h3 1 2 (by norm_num) (by norm_num)
  have b20 := h3 2 0 (by norm_num) (by norm_num)
  have b21 := h3 2 1 (by norm_num) (by norm_num)
  have b22 := h3 2 2 (by norm_num) (by norm_num)
  have y0 := h4 0 (by norm_num)
  have y1 := h4 1 (by norm_num)
  have y2 := h4 2 (by norm_num)
  simp only [if_true] at y0 y1 y2
  rcases y0 with y0 | y0 <;> rcases y1 with y1 | y1 <;> rcases y2 with y2 | y2 <;>
    rw [y0] at a00 a01 a02 <;> rw [y1] at a10 a11 a12 <;> rw [y2] at a20 a21 a22 <;>
    rw [y0, y1, y2] <;> linarith

theorem gap_integer_optimum :
    IsOptimum (builtModels gapDemand gapCost gapFixed)
      (builtModels gapDemand gapCost gapFixed).mod gapIntegerPoint ∧
    (builtModels gapDemand gapCost gapFixed).mod.objValue gapIntegerPoint = -1 := by
  have hf : Feasible (builtModels gapDemand gapCost gapFixed)
      (builtModels gapDemand gapCost gapFixed).mod gapIntegerPoint := by
    rw [feasible_mod_iff]
    refine (gap_feasible_iff true _).2 ⟨⟨?_, ?_, ?_⟩, ?_, ?_, ?_⟩
    · norm_num [gapIntegerPoint]
    · norm_num [gapIntegerPoint]
    · norm_num [gapIntegerPoint]
    · intro p q hp hq
      interval_cases p <;> simp [gapIntegerPoint]
    · intro p q hp hq
      interval_cases p <;> simp [gapIntegerPoint]
    · intro p hp
      interval_cases p <;> simp [gapIntegerPoint]
  have hv : (builtModels gapDemand gapCost gapFixed).mod.objValue gapIntegerPoint = -1 := by
    rw [objValue_mod, gap_objective]
    norm_num [gapIntegerPoint]
  refine ⟨⟨hf, fun τ hτ => ?_⟩, hv⟩
  rw [hv, objValue_mod]
  exact gap_integer_bound τ ((feasible_mod_iff _ _ _ τ).1 hτ)

theorem gap_relaxed_optimum :
    IsOptimum (builtModels gapDemand gapCost gapFixed)
      (builtModels gapDemand gapCost gapFixed).modLP gapRelaxedPoint ∧
    (builtModels gapDemand gapCost gapFixed).modLP.objValue gapRelaxedPoint = -3 / 2 := by
  have hf : Feasible (builtModels gapDemand gapCost gapFixed)
      (builtModels gapDemand gapCost gapFixed).modLP gapRelaxedPoint := by
    rw [feasible_modLP_iff]
    refine (gap_feasible_iff false _).2 ⟨⟨?_, ?_, ?_⟩, ?_, ?_, ?_⟩
    · norm_num [gapRelaxedPoint]
    · norm_num [gapRelaxedPoint]
    · norm_num [gapRelaxedPoint]
    · intro p q hp hq
      by_cases hpq : p = q <;> simp [gapRelaxedPoint, hpq]
    · intro p q hp hq
      by_cases hpq : p = q <;> simp [gapRelaxedPoint, hpq]
    · intro p hp
      norm_num [gapRelaxedPoint]
  have hv : (builtModels gapDemand gapCost gapFixed).modLP.objValue gapRelaxedPoint
      = -3 / 2 := by
    rw [objValue_modLP, gap_objective]
    norm_num [gapRelaxedPoint]
  refine ⟨⟨hf, fun τ hτ => ?_⟩, hv⟩
  rw [hv, objValue_modLP]
  exact gap_relaxed_bound τ ((feasible_modLP_iff _ _ _ τ).1 hτ)

/-! ### Optima of the example instances -/

theorem demo_optima :
    (∃ σ, IsOptimum (builtModels demoDemand demoCost demoFixed)
      (builtModels demoDemand demoCost demoFixed).mod σ) ∧
    (∃ τ, IsOptimum (builtModels demoDemand demoCost demoFixed)
      (builtModels demoDemand demoCost demoFixed).modLP τ) := by
  have hP : (onlyPoint ℚ (Var.y 0) = 1 ∧ onlyPoint ℚ (Var.x 0 0) = 10
      ∧ onlyPoint ℚ (Var.x 0 1) = 20) := ⟨rfl, rfl, rfl⟩
  have hlen : demoFixed.length = 1 := rfl
  constructor
  · refine ⟨onlyPoint ℚ, ?_, fun τ hτ => ?_⟩
    · rw [feasible_mod_iff, hlen]
      exact (specFeasible_single true _).2 hP
    · rw [feasible_mod_iff, hlen] at hτ
      rw [objValue_mod, objValue_mod]
      exact le_of_eq ((specObjective_single _ hP).trans
        (specObjective_single τ ((specFeasible_single true τ).1 hτ)).symm)
  · refine ⟨onlyPoint ℚ, ?_, fun τ hτ => ?_⟩
    · rw [feasible_modLP_iff, hlen]
      exact (specFeasible_single false _).2 hP
    · rw [feasible_modLP_iff, hlen] at hτ
      rw [objValue_modLP, objValue_modLP]
      exact le_of_eq ((specObjective_single _ hP).trans
        (specObjective_single τ ((specFeasible_single false τ).1 hτ)).symm)

theorem pair_optimum :
    IsOptimum (builtModels demoDemand pairCost pairFixed)
      (builtModels demoDemand pairCost pairFixed).mod (serveFrom demoDemand 0) := by
  have hd : ∀ q, q < demoDemand.length → 0 ≤ numAt demoDemand q := by
    intro q hq
    have hq2 : q < 2 := hq
    interval_cases q <;> norm_num [numAt, demoDemand]
  refine ⟨serveFrom_feasible demoDemand pairCost pairFixed rfl 0 1 (by decide) (by decide)
    (by decide) hd, fun τ hτ => ?_⟩
  obtain ⟨h1, h2, h3, h4⟩ := (feasible_mod_iff _ _ _ τ).1 hτ
  have e0 := h1 0 (by decide)
  have e1 := h1 1 (by decide)
  have l00 := h2 0 0 (by decide) (by decide)
  have l01 := h2 0 1 (by decide) (by decide)
  have n00 := h3 0 0 (by decide) (by decide)
  have n01 := h3 0 1 (by decide) (by decide)
  have n10 := h3 1 0 (by decide) (by decide)
  have n11 := h3 1 1 (by decide) (by decide)
  have y0 := h4 0 (by decide)
  have y1 := h4 1 (by decide)
  simp only [if_true] at y0 y1
  have hlen : pairFixed.length = 2 := rfl
  rw [hlen] at e0 e1
  simp [Finset.sum_range_succ, numAt, demoDemand] at e0 e1 l00 l01
  rw [objValue_mod, objValue_mod]
  simp [specObjective, Finset.sum_range_succ, costAt, numAt, demoDemand, pairCost, pairFixed,
    serveFrom]
  rcases y0 with y0 | y0 <;> rcases y1 with y1 | y1 <;> rw [y0] at l00 l01 <;>
    rw [y0, y1] <;> linarith

/-! ## The input side -/

/-- C1: for at least three lines whose lines 1 to n-3 each contain a comma, `parseFile`
writes the first line, then for each of the lines 1 to n-3 a newline and the line up to
its last comma between brackets followed by a comma, then a newline and line n-2
between brackets, then a newline and the last line; nothing else. -/
theorem parseFileText_three_or_more (L : List (List Char)) (h3 : 3 ≤ L.length)
    (hc : ∀ i, 1 ≤ i → i + 3 ≤ L.length → ',' ∈ L.getD i []) :
    ∃ rows : List (List Char),
      rows.length = L.length - 3 ∧
      (∀ j, j < L.length - 3 →
        ∃ suf, ',' ∉ suf ∧ L.getD (j + 1) [] = rows.getD j [] ++ ',' :: suf) ∧
      parseFileText L = some (L.getD 0 []
        ++ (rows.map fun r => '\n' :: '[' :: r ++ [']', ',']).flatten
        ++ ('\n' :: '[' :: L.getD (L.length - 2) [] ++ [']'])
        ++ ('\n' :: L.getD (L.length - 1) [])) := by
  refine ⟨((L.drop 1).take (L.length - 3)).map keptPart, by simp; omega, ?_, ?_⟩
  · intro j hj
    have hget : (((L.drop 1).take (L.length - 3)).map keptPart).getD j []
        = keptPart (L.getD (j + 1) []) := by
      have h1 : j + 1 < L.length := by omega
      simp [List.getD_eq_getElem?_getD, List.getElem?_take, hj, List.getElem?_drop,
        Nat.add_comm 1 j, List.getElem?_eq_getElem h1]
    obtain ⟨pre, suf, e, hn, hr⟩ := rfind?_eq_some (hc (j + 1) (by omega) (by omega))
    refine ⟨suf, hn, ?_⟩
    rw [hget]
    have hk : keptPart (L.getD (j + 1) []) = pre := by
      simp only [keptPart, substr, find_last_of, hr, Option.getD_some, List.drop_zero]
      rw [e]
      simp
    rw [hk]
    exact e
  · rw [parseFileText_eq L (by omega), List.map_map]
    rfl

/-- C1 at five lines. -/
theorem parseFileText_three_or_more_witness :
    ∃ rows : List (List Char),
      rows.length = 2 ∧
      (∀ j, j < 2 → ∃ suf, ',' ∉ suf ∧
        ["[1]".toList, "2,3,".toList, "45,".toList, "6,7".toList, "[8]".toList].getD (j + 1) []
          = rows.getD j [] ++ ',' :: suf) ∧
      parseFileText ["[1]".toList, "2,3,".toList, "45,".toList, "6,7".toList, "[8]".toList]
        = some ("[1]".toList
          ++ (rows.map fun r => '\n' :: '[' :: r ++ [']', ',']).flatten
          ++ ('\n' :: '[' :: "6,7".toList ++ [']'])
          ++ ('\n' :: "[8]".toList)) :=
  parseFileText_three_or_more
    ["[1]".toList, "2,3,".toList, "45,".toList, "6,7".toList, "[8]".toList] (by decide)
    (by
      intro i h1 h2
      have h5 : i + 3 ≤ 5 := h2
      have h6 : i ≤ 2 := by omega
      interval_cases i <;> decide)

/-- C4, at a run with the argument `other.dat`: the stream read is the text of
`other.dat` as it is, not the normalized text of its lines, and what was normalized
(and left in `temp.txt`) are the lines of `UFL.dat`. -/
theorem mainLoad_with_argument :
    streamRead (mainLoad twoFiles (some "other.dat")) = some "[7]\n8,\n9\n[6]\n".toList ∧
    (iterateFile twoFiles "other.dat").bind parseFileText = some "[7]\n[8],\n[9]\n[6]".toList ∧
    (match mainLoad twoFiles (some "other.dat") with
      | .ok (_, fs) => fs "temp.txt"
      | .error _ => none) = some "[1]\n[2],\n[3]\n[4]".toList := by
  decide

/-- C10, at a run without argument that finds a `temp.txt`: the stream read starts with
what `temp.txt` held, followed by the text of this run; the same run without that
`temp.txt` reads the text of this run alone. -/
theorem mainLoad_stale_temp :
    streamRead (mainLoad staleTemp none)
      = some ("[9]\n[[9]]\n[9]\n".toList ++ "[1]\n[2],\n[3]\n[4]".toList) ∧
    (iterateFile staleTemp "UFL.dat").bind parseFileText = some "[1]\n[2],\n[3]\n[4]".toList ∧
    streamRead (mainLoad (fun p => if p = "temp.txt" then none else staleTemp p) none)
      = some "[1]\n[2],\n[3]\n[4]".toList := by
  decide

/-- The run without argument reads what `temp.txt` held before, followed by the text
that `parseFile` writes for the non-blank lines of `UFL.dat`. -/
theorem mainLoad_without_argument (fs : FileSystem) (content text : List Char)
    (h1 : fs "UFL.dat" = some content)
    (h2 : parseFileText ((getlines content).filter (fun str => str ≠ [])) = some text) :
    streamRead (mainLoad fs none) = some ((fs "temp.txt").getD [] ++ text) := by
  unfold mainLoad
  simp only [Option.getD_none, h1, iterateFile, Option.getD_some, parseFile, h2]
  simp [streamRead, FileSystem.append, FileSystem.write]

/-- The run without argument on `UFL.dat` and a `temp.txt` left behind. -/
theorem mainLoad_without_argument_witness :
    streamRead (mainLoad staleTemp none)
      = some ((staleTemp "temp.txt").getD [] ++ "[1]\n[2],\n[3]\n[4]".toList) :=
  mainLoad_without_argument staleTemp "[1]\n2,\n3\n[4]\n".toList "[1]\n[2],\n[3]\n[4]".toList
    (by decide) (by decide)

/-- The run with an argument other than `temp.txt` reads the file at the argument as it
is, whenever `parseFile` has a text to write for the lines of `UFL.dat`. -/
theorem mainLoad_reads_argument (fs : FileSystem) (a : String) (raw text : List Char)
    (ha : fs a = some raw) (hne : a ≠ "temp.txt")
    (h2 : parseFileText ((iterateFile fs "UFL.dat").getD []) = some text) :
    streamRead (mainLoad fs (some a)) = some raw := by
  unfold mainLoad
  simp only [Option.getD_some, ha, parseFile, h2]
  simp [streamRead, FileSystem.append, FileSystem.write, hne, ha]

/-- The run with the argument `other.dat`. -/
theorem mainLoad_reads_argument_witness :
    streamRead (mainLoad twoFiles (some "other.dat")) = some "[7]\n8,\n9\n[6]\n".toList :=
  mainLoad_reads_argument twoFiles "other.dat" "[7]\n8,\n9\n[6]\n".toList
    "[1]\n[2],\n[3]\n[4]".toList (by decide) (by decide) (by decide)

/-- A run whose chosen file is missing stops with "No such file" for that path. -/
theorem mainLoad_missing_file (fs : FileSystem) (argv1 : Option String)
    (h : fs (argv1.getD "UFL.dat") = none) :
    mainLoad fs argv1 = .error (.noSuchFile (argv1.getD "UFL.dat")) := by
  simp [mainLoad, h]

/-- The run without argument on a file system without `UFL.dat`. -/
theorem mainLoad_missing_file_witness :
    mainLoad (fun _ => none) none = .error (.noSuchFile ((none : Option String).getD "UFL.dat")) :=
  mainLoad_missing_file (fun _ => none) none rfl

/-- The lines that `iterateFile` hands to the callback are not blank and hold no
newline. -/
theorem iterateFile_lines (fs : FileSystem) (fileName : String) (lines : List (List Char))
    (h : iterateFile fs fileName = some lines) :
    ∀ line ∈ lines, line ≠ [] ∧ '\n' ∉ line := by
  unfold iterateFile at h
  cases hfs : fs fileName with
  | none => simp [hfs] at h
  | some content =>
    simp only [hfs, Option.some.injEq] at h
    subst h
    intro line hline
    have hm := List.mem_filter.1 hline
    exact ⟨by simpa using hm.2, getlines_no_newline content line hm.1⟩

/-- The lines of a file with a blank line in it. -/
theorem iterateFile_lines_witness :
    ∀ line ∈ ["[10,20]".toList, "[5]".toList], line ≠ [] ∧ '\n' ∉ line :=
  iterateFile_lines twoLines "UFL.dat" ["[10,20]".toList, "[5]".toList] (by decide)

/-! ## The model side -/

section ModelClaims

variable {K : Type} [LinearOrderedField K]

/-- C2: for a well-shaped instance the construction returns two models with the
objective `Σ_p Σ_q c[p][q]·x[p][q] + Σ_p f[p]·y[p]`, with one constraint
`Σ_p x[p][q] = d[q]` per client and one constraint `x[p][q] ≤ d[q]·y[p]` per pair as
their constraints, over variables `x[p][q] ≥ 0` without upper bound; the relaxed model is
the integer model with the conversion of `y` added, so `y` is binary in the one and in
[0,1] in the other, and nothing else differs. -/
theorem buildModels_meets_specification (d : List K) (c : List (List K)) (f : List K)
    (hs : WellShaped d c f) :
    ∃ b : Models K, buildModels d c f = some b ∧
      (∃ Cost, b.mod.objective = some Cost ∧ b.modLP.objective = some Cost ∧
        ∀ σ, IloExpr.eval Cost σ = specObjective d c f σ) ∧
      b.mod.constraints
        = ((List.range d.length).map fun q =>
            IloExtractable.eq ((List.range f.length).map fun p => ((1 : K), Var.x p q)) (numAt d q))
          ++ ((List.range f.length).map fun p =>
              (List.range d.length).map fun q =>
                IloExtractable.le (Var.x p q) (numAt d q) (Var.y p)).flatten ∧
      b.modLP.constraints = b.mod.constraints ∧
      b.x = ((List.range f.length).map fun p =>
              (List.range d.length).map fun q =>
                (⟨Var.x p q, 0, none, VarType.ILOFLOAT⟩ : IloNumVar K)) ∧
      b.y = ((List.range f.length).map fun p =>
              (⟨Var.y p, 0, some 1, VarType.ILOBOOL⟩ : IloNumVar K)) ∧
      b.modLP = b.mod
        ++ [IloExtractable.IloConversion ((List.range f.length).map Var.y) VarType.ILOFLOAT] ∧
      (∀ v, b.mod.typeOf v = v.type) ∧
      (∀ σ, Feasible b b.mod σ ↔ SpecFeasible true d f.length σ) ∧
      (∀ σ, Feasible b b.modLP σ ↔ SpecFeasible false d f.length σ) :=
  ⟨builtModels d c f, buildModels_eq hs,
    ⟨costTerms d c f, objective_mod d c f, objective_modLP d c f, eval_costTerms d c f⟩,
    constraints_mod d c f,
    (constraints_modLP d c f).trans (constraints_mod d c f).symm,
    rfl, rfl, rfl, typeOf_mod d c f, feasible_mod_iff d c f, feasible_modLP_iff d c f⟩

/-- C2 at the instance with demands 10 and 20 and one facility. -/
theorem buildModels_meets_specification_witness :
    WellShaped demoDemand demoCost demoFixed ∧
      ∃ b : Models ℚ, buildModels demoDemand demoCost demoFixed = some b ∧
        (∃ Cost, b.mod.objective = some Cost ∧ b.modLP.objective = some Cost ∧
          ∀ σ, IloExpr.eval Cost σ = specObjective demoDemand demoCost demoFixed σ) ∧
        b.mod.constraints
          = ((List.range demoDemand.length).map fun q =>
              IloExtractable.eq ((List.range demoFixed.length).map fun p => ((1 : ℚ), Var.x p q)) (numAt demoDemand q))
            ++ ((List.range demoFixed.length).map fun p =>
                (List.range demoDemand.length).map fun q =>
                  IloExtractable.le (Var.x p q) (numAt demoDemand q) (Var.y p)).flatten ∧
        b.modLP.constraints = b.mod.constraints ∧
        b.x = ((List.range demoFixed.length).map fun p =>
                (List.range demoDemand.length).map fun q =>
                  (⟨Var.x p q, 0, none, VarType.ILOFLOAT⟩ : IloNumVar ℚ)) ∧
        b.y = ((List.range demoFixed.length).map fun p =>
                (⟨Var.y p, 0, some 1, VarType.ILOBOOL⟩ : IloNumVar ℚ)) ∧
        b.modLP = b.mod
          ++ [IloExtractable.IloConversion ((List.range demoFixed.length).map Var.y) VarType.ILOFLOAT] ∧
        (∀ v, b.mod.typeOf v = v.type) ∧
        (∀ σ, Feasible b b.mod σ ↔ SpecFeasible true demoDemand demoFixed.length σ) ∧
        (∀ σ, Feasible b b.modLP σ ↔ SpecFeasible false demoDemand demoFixed.length σ) :=
  ⟨by simp [WellShaped, demoDemand, demoCost, demoFixed],
    buildModels_meets_specification demoDemand demoCost demoFixed
      (by simp [WellShaped, demoDemand, demoCost, demoFixed])⟩

/-- C5: for a well-shaped instance, every feasible point of the integer model is feasible
for the relaxed model with the same objective value, and the objective value of an
optimum of the relaxed model is at most that of an optimum of the integer model. -/
theorem relaxed_optimum_le_integer_optimum (d : List K) (c : List (List K)) (f : List K)
    (hs : WellShaped d c f) :
    ∃ b : Models K, buildModels d c f = some b ∧
      (∀ σ, Feasible b b.mod σ →
        Feasible b b.modLP σ ∧ b.modLP.objValue σ = b.mod.objValue σ) ∧
      (∀ σ τ, IsOptimum b b.mod σ → IsOptimum b b.modLP τ →
        b.modLP.objValue τ ≤ b.mod.objValue σ) := by
  have key : ∀ σ, Feasible (builtModels d c f) (builtModels d c f).mod σ →
      Feasible (builtModels d c f) (builtModels d c f).modLP σ ∧
      (builtModels d c f).modLP.objValue σ = (builtModels d c f).mod.objValue σ := by
    intro σ hσ
    exact ⟨(feasible_modLP_iff d c f σ).2 (specFeasible_relax ((feasible_mod_iff d c f σ).1 hσ)),
      by rw [objValue_mod, objValue_modLP]⟩
  refine ⟨builtModels d c f, buildModels_eq hs, key, ?_⟩
  intro σ τ hσ hτ
  have h := hτ.2 σ (key σ hσ.1).1
  rw [(key σ hσ.1).2] at h
  exact h

/-- C5 at the instance with demands 10 and 20 and one facility, where both models have an
optimum. -/
theorem relaxed_optimum_le_integer_optimum_witness :
    WellShaped demoDemand demoCost demoFixed ∧
      (∃ b : Models ℚ, buildModels demoDemand demoCost demoFixed = some b ∧
        (∀ σ, Feasible b b.mod σ →
          Feasible b b.modLP σ ∧ b.modLP.objValue σ = b.mod.objValue σ) ∧
        (∀ σ τ, IsOptimum b b.mod σ → IsOptimum b b.modLP τ →
          b.modLP.objValue τ ≤ b.mod.objValue σ)) ∧
      ∃ b : Models ℚ, buildModels demoDemand demoCost demoFixed = some b ∧
        (∃ σ, IsOptimum b b.mod σ) ∧ (∃ τ, IsOptimum b b.modLP τ) :=
  ⟨by simp [WellShaped, demoDemand, demoCost, demoFixed],
    relaxed_optimum_le_integer_optimum demoDemand demoCost demoFixed
      (by simp [WellShaped, demoDemand, demoCost, demoFixed]),
    ⟨builtModels demoDemand demoCost demoFixed,
      buildModels_eq (by simp [WellShaped, demoDemand, demoCost, demoFixed]),
      demo_optima.1, demo_optima.2⟩⟩

/-- C9: for a well-shaped instance and a feasible point of the integer model, `y[p] = 0`
implies `x[p][q] = 0` for every facility `p` and client `q`. -/
theorem closed_facility_ships_nothing (d : List K) (c : List (List K)) (f : List K)
    (hs : WellShaped d c f) :
    ∃ b : Models K, buildModels d c f = some b ∧
      ∀ σ, Feasible b b.mod σ → ∀ p q, p < f.length → q < d.length →
        σ (Var.y p) = 0 → σ (Var.x p q) = 0 := by
  refine ⟨builtModels d c f, buildModels_eq hs, ?_⟩
  intro σ hσ p q hp hq hy
  obtain ⟨_, h2, h3, _⟩ := (feasible_mod_iff d c f σ).1 hσ
  have hle := h2 p q hp hq
  rw [hy, mul_zero] at hle
  exact le_antisymm hle (h3 p q hp hq)

/-- C9 at two facilities with fixed costs 5 and 7: the point that serves both clients
from facility 0 is feasible for the integer model and has `y[1] = 0`, and there C9 gives
`x[1][0] = 0` and `x[1][1] = 0`. -/
theorem closed_facility_ships_nothing_witness :
    WellShaped demoDemand pairCost pairFixed ∧
      ∃ b : Models ℚ, buildModels demoDemand pairCost pairFixed = some b ∧
        Feasible b b.mod (serveFrom demoDemand 0) ∧
        serveFrom demoDemand 0 (Var.y 1) = 0 ∧
        serveFrom demoDemand 0 (Var.x 1 0) = 0 ∧
        serveFrom demoDemand 0 (Var.x 1 1) = 0 ∧
        ∀ σ, Feasible b b.mod σ → ∀ p q, p < pairFixed.length → q < demoDemand.length →
          σ (Var.y p) = 0 → σ (Var.x p q) = 0 :=
  have hs : WellShaped demoDemand pairCost pairFixed := by
    simp [WellShaped, demoDemand, pairCost, pairFixed]
  have hy : serveFrom demoDemand 0 (Var.y 1) = 0 := by simp [serveFrom]
  match closed_facility_ships_nothing demoDemand pairCost pairFixed hs with
  | ⟨b, hb, h⟩ =>
    have hbuilt : b = builtModels demoDemand pairCost pairFixed :=
      Option.some.inj (hb.symm.trans (buildModels_eq hs))
    have hfeas : Feasible b b.mod (serveFrom demoDemand 0) := by
      rw [hbuilt]
      exact pair_optimum.1
    ⟨hs, b, hb, hfeas, hy,
      h _ hfeas 1 0 (by decide) (by decide) hy,
      h _ hfeas 1 1 (by decide) (by decide) hy, h⟩

/-- For a well-shaped instance, every feasible point of the integer model covers the
demand of every client exactly: `Σ_p x[p][q] = d[q]`. -/
theorem demand_is_covered (d : List K) (c : List (List K)) (f : List K)
    (hs : WellShaped d c f) :
    ∃ b : Models K, buildModels d c f = some b ∧
      ∀ σ, Feasible b b.mod σ → ∀ q, q < d.length →
        ∑ p in Finset.range f.length, σ (Var.x p q) = numAt d q := by
  refine ⟨builtModels d c f, buildModels_eq hs, ?_⟩
  intro σ hσ q hq
  exact ((feasible_mod_iff d c f σ).1 hσ).1 q hq

/-- The demand coverage at the instance with demands 10 and 20 and one facility. -/
theorem demand_is_covered_witness :
    ∃ b : Models ℚ, buildModels demoDemand demoCost demoFixed = some b ∧
      ∀ σ, Feasible b b.mod σ → ∀ q, q < demoDemand.length →
        ∑ p in Finset.range demoFixed.length, σ (Var.x p q) = numAt demoDemand q :=
  demand_is_covered demoDemand demoCost demoFixed
    (by simp [WellShaped, demoDemand, demoCost, demoFixed])

/-- C7: for `demand = [10,20]`, `fixedCost = [5]`, `cost = [[1,1]]` the integer model has
exactly one feasible point, `y[0] = 1`, `x[0][0] = 10`, `x[0][1] = 20`, with objective
value 35, and the relaxed model has an optimum, with objective value 35. -/
theorem single_facility_scenario :
    ∃ b : Models K, buildModels [(10 : K), 20] [[1, 1]] [5] = some b ∧
      (∀ σ, Feasible b b.mod σ ↔
        (σ (Var.y 0) = 1 ∧ σ (Var.x 0 0) = 10 ∧ σ (Var.x 0 1) = 20)) ∧
      (∃ σ, Feasible b b.mod σ) ∧
      (∀ σ, Feasible b b.mod σ → b.mod.objValue σ = 35) ∧
      (∃ τ, IsOptimum b b.modLP τ) ∧
      (∀ τ, IsOptimum b b.modLP τ → b.modLP.objValue τ = 35) := by
  have hs : WellShaped [(10 : K), 20] [[1, 1]] [5] := by simp [WellShaped]
  have hI : ∀ σ, Feasible (builtModels [(10 : K), 20] [[1, 1]] [5])
      (builtModels [(10 : K), 20] [[1, 1]] [5]).mod σ ↔
      (σ (Var.y 0) = 1 ∧ σ (Var.x 0 0) = 10 ∧ σ (Var.x 0 1) = 20) := fun σ =>
    (feasible_mod_iff _ _ _ σ).trans (specFeasible_single true σ)
  have hL : ∀ σ, Feasible (builtModels [(10 : K), 20] [[1, 1]] [5])
      (builtModels [(10 : K), 20] [[1, 1]] [5]).modLP σ ↔
      (σ (Var.y 0) = 1 ∧ σ (Var.x 0 0) = 10 ∧ σ (Var.x 0 1) = 20) := fun σ =>
    (feasible_modLP_iff _ _ _ σ).trans (specFeasible_single false σ)
  have hP : (onlyPoint K (Var.y 0) = 1 ∧ onlyPoint K (Var.x 0 0) = 10
      ∧ onlyPoint K (Var.x 0 1) = 20) := ⟨rfl, rfl, rfl⟩
  refine ⟨builtModels _ _ _, buildModels_eq hs, hI, ⟨onlyPoint K, (hI _).2 hP⟩, ?_, ?_, ?_⟩
  · intro σ hσ
    rw [objValue_mod]
    exact specObjective_single σ ((hI σ).1 hσ)
  · refine ⟨onlyPoint K, (hL _).2 hP, fun τ hτ => ?_⟩
    rw [objValue_modLP, objValue_modLP, specObjective_single _ hP,
      specObjective_single τ ((hL τ).1 hτ)]
  · intro τ hτ
    rw [objValue_modLP]
    exact specObjective_single τ ((hL τ).1 hτ.1)

/-- C8: with exactly two facilities `A` and `B`, `fixedCost[A] < fixedCost[B]`,
`cost[A][q] ≤ cost[B][q]` for every client `q`, and `demand` and `fixedCost` non-negative,
every optimum of the integer model has `y[B] = 0`. -/
theorem dominated_facility_stays_closed (d : List K) (c : List (List K)) (f : List K)
    (hs : WellShaped d c f) (h2 : f.length = 2) (A B : Nat) (hA : A < 2) (hB : B < 2)
    (hAB : A ≠ B) (hf : numAt f A < numAt f B)
    (hc : ∀ q, q < d.length → costAt c A q ≤ costAt c B q)
    (hd : ∀ q, q < d.length → 0 ≤ numAt d q)
    (hfA : 0 ≤ numAt f A) :
    ∃ b : Models K, buildModels d c f = some b ∧
      ∀ σ, IsOptimum b b.mod σ → σ (Var.y B) = 0 := by
  refine ⟨builtModels d c f, buildModels_eq hs, ?_⟩
  intro σ hσ
  obtain ⟨h1, hlink, hx, hy⟩ := (feasible_mod_iff d c f σ).1 hσ.1
  rw [h2] at h1 hlink hx hy
  have hyB := hy B hB
  simp only [if_true] at hyB
  rcases hyB with hyB | hyB
  · exact hyB
  exfalso
  have hτ : Feasible (builtModels d c f) (builtModels d c f).mod (serveFrom d A) :=
    serveFrom_feasible d c f h2 A B hA hB hAB hd
  have hopt := hσ.2 _ hτ
  rw [objValue_mod, objValue_mod] at hopt
  unfold specObjective at hopt
  rw [h2, sum_two _ A B hA hB hAB, sum_two _ A B hA hB hAB,
    sum_two _ A B hA hB hAB, sum_two _ A B hA hB hAB] at hopt
  have hyA : 0 ≤ σ (Var.y A) := by
    have := hy A hA
    simp only [if_true] at this
    rcases this with h0 | h0 <;> simp [h0]
  have hship : ∑ q in Finset.range d.length, costAt c A q * numAt d q
      ≤ ∑ q in Finset.range d.length, costAt c A q * σ (Var.x A q)
        + ∑ q in Finset.range d.length, costAt c B q * σ (Var.x B q) := by
    rw [← Finset.sum_add_distrib]
    apply Finset.sum_le_sum
    intro q hq
    have hq' := Finset.mem_range.1 hq
    have e := h1 q hq'
    rw [sum_two _ A B hA hB hAB] at e
    have hxB := hx B q hB hq'
    have hcq := hc q hq'
    rw [← e, mul_add]
    have := mul_le_mul_of_nonneg_right hcq hxB
    linarith
  have hfy : 0 ≤ numAt f A * σ (Var.y A) := mul_nonneg hfA hyA
  simp only [serveFrom, if_true, if_neg hAB.symm, mul_zero, mul_one, Finset.sum_const_zero,
    add_zero, hyB] at hopt
  linarith

/-- C8 at two facilities with fixed costs 5 and 7 and costs 1, 1 and 2, 3, where the
integer model has an optimum. -/
theorem dominated_facility_stays_closed_witness :
    (numAt pairFixed 0 < numAt pairFixed 1 ∧
      ∀ q, q < demoDemand.length → costAt pairCost 0 q ≤ costAt pairCost 1 q) ∧
      (∃ b : Models ℚ, buildModels demoDemand pairCost pairFixed = some b ∧
        ∀ σ, IsOptimum b b.mod σ → σ (Var.y 1) = 0) ∧
      ∃ b : Models ℚ, buildModels demoDemand pairCost pairFixed = some b ∧
        ∃ σ, IsOptimum b b.mod σ :=
  have hf : numAt pairFixed 0 < numAt pairFixed 1 := by norm_num [numAt, pairFixed]
  have hc : ∀ q, q < demoDemand.length → costAt pairCost 0 q ≤ costAt pairCost 1 q := by
    intro q hq
    have hq2 : q < 2 := hq
    interval_cases q <;> norm_num [costAt, pairCost]
  ⟨⟨hf, hc⟩,
    dominated_facility_stays_closed demoDemand pairCost pairFixed
      (by simp [WellShaped, demoDemand, pairCost, pairFixed]) rfl 0 1 (by decide) (by decide)
      (by decide) hf hc
      (by
        intro q hq
        have hq2 : q < 2 := hq
        interval_cases q <;> norm_num [numAt, demoDemand])
      (by norm_num [numAt, pairFixed]),
    ⟨builtModels demoDemand pairCost pairFixed,
      buildModels_eq (by simp [WellShaped, demoDemand, pairCost, pairFixed]),
      serveFrom demoDemand 0, pair_optimum⟩⟩

/-- C6, amended: for a well-shaped instance and optima of the two models, the percentage
gap has a value exactly when the objective value of the integer model is not zero; it is
at least 0 when that value is positive and at most 0 when it is negative. -/
theorem percentageGap_sign (d : List K) (c : List (List K)) (f : List K)
    (hs : WellShaped d c f) :
    ∃ b : Models K, buildModels d c f = some b ∧
      ∀ σ τ, IsOptimum b b.mod σ → IsOptimum b b.modLP τ →
        (percentageGap (b.mod.objValue σ) (b.modLP.objValue τ) = none
          ↔ b.mod.objValue σ = 0) ∧
        (0 < b.mod.objValue σ →
          ∃ g, percentageGap (b.mod.objValue σ) (b.modLP.objValue τ) = some g ∧ 0 ≤ g) ∧
        (b.mod.objValue σ < 0 →
          ∃ g, percentageGap (b.mod.objValue σ) (b.modLP.objValue τ) = some g ∧ g ≤ 0) := by
  refine ⟨builtModels d c f, buildModels_eq hs, ?_⟩
  intro σ τ hσ hτ
  have hle : (builtModels d c f).modLP.objValue τ ≤ (builtModels d c f).mod.objValue σ := by
    have hfeas : Feasible (builtModels d c f) (builtModels d c f).modLP σ :=
      (feasible_modLP_iff d c f σ).2 (specFeasible_relax ((feasible_mod_iff d c f σ).1 hσ.1))
    have := hτ.2 σ hfeas
    rwa [objValue_modLP d c f σ, ← objValue_mod d c f σ] at this
  have hdiff : 0 ≤ 100 * ((builtModels d c f).mod.objValue σ
      - (builtModels d c f).modLP.objValue τ) := by
    have : 0 ≤ (builtModels d c f).mod.objValue σ - (builtModels d c f).modLP.objValue τ :=
      sub_nonneg.2 hle
    positivity
  refine ⟨?_, ?_, ?_⟩
  · unfold percentageGap
    by_cases h0 : (builtModels d c f).mod.objValue σ = 0 <;> simp [h0]
  · intro hpos
    refine ⟨_, if_neg (ne_of_gt hpos), ?_⟩
    exact div_nonneg hdiff (le_of_lt hpos)
  · intro hneg
    refine ⟨_, if_neg (ne_of_lt hneg), ?_⟩
    exact div_nonpos_of_nonneg_of_nonpos hdiff (le_of_lt hneg)

/-- C6, amended, at the instance with demands 10 and 20 and one facility, where both models
have an optimum. -/
theorem percentageGap_sign_witness :
    WellShaped demoDemand demoCost demoFixed ∧
      (∃ b : Models ℚ, buildModels demoDemand demoCost demoFixed = some b ∧
        ∀ σ τ, IsOptimum b b.mod σ → IsOptimum b b.modLP τ →
          (percentageGap (b.mod.objValue σ) (b.modLP.objValue τ) = none
            ↔ b.mod.objValue σ = 0) ∧
          (0 < b.mod.objValue σ →
            ∃ g, percentageGap (b.mod.objValue σ) (b.modLP.objValue τ) = some g ∧ 0 ≤ g) ∧
          (b.mod.objValue σ < 0 →
            ∃ g, percentageGap (b.mod.objValue σ) (b.modLP.objValue τ) = some g ∧ g ≤ 0)) ∧
      ∃ b : Models ℚ, buildModels demoDemand demoCost demoFixed = some b ∧
        (∃ σ, IsOptimum b b.mod σ) ∧ (∃ τ, IsOptimum b b.modLP τ) :=
  ⟨by simp [WellShaped, demoDemand, demoCost, demoFixed],
    percentageGap_sign demoDemand demoCost demoFixed
      (by simp [WellShaped, demoDemand, demoCost, demoFixed]),
    ⟨builtModels demoDemand demoCost demoFixed,
      buildModels_eq (by simp [WellShaped, demoDemand, demoCost, demoFixed]),
      demo_optima.1, demo_optima.2⟩⟩

end ModelClaims

/-- C6, as found: the instance with `demand = [1,1,1]`, `fixedCost = [1,1,1]` and costs
0 on the diagonal and -1 elsewhere is well formed, both models have an optimum, of value
-1 for the integer model and -3/2 for the relaxed one, and the percentage gap is -50. -/
theorem percentageGap_negative :
    WellShaped gapDemand gapCost gapFixed ∧
    (∀ a ∈ gapDemand, 0 ≤ a) ∧ (∀ a ∈ gapFixed, 0 ≤ a) ∧
    ∃ b : Models ℚ, buildModels gapDemand gapCost gapFixed = some b ∧
      (∃ σ, IsOptimum b b.mod σ) ∧ (∃ τ, IsOptimum b b.modLP τ) ∧
      ∀ σ τ, IsOptimum b b.mod σ → IsOptimum b b.modLP τ →
        b.mod.objValue σ = -1 ∧ b.modLP.objValue τ = -3 / 2 ∧
        percentageGap (b.mod.objValue σ) (b.modLP.objValue τ) = some (-50) ∧
        ¬ ∃ g, percentageGap (b.mod.objValue σ) (b.modLP.objValue τ) = some g ∧ 0 ≤ g := by
  have hs : WellShaped gapDemand gapCost gapFixed := by
    simp [WellShaped, gapDemand, gapCost, gapFixed]
  refine ⟨hs, by simp [gapDemand], by simp [gapFixed], builtModels _ _ _, buildModels_eq hs,
    ⟨_, gap_integer_optimum.1⟩, ⟨_, gap_relaxed_optimum.1⟩, ?_⟩
  intro σ τ hσ hτ
  have h1 : (builtModels gapDemand gapCost gapFixed).mod.objValue σ = -1 := by
    apply le_antisymm
    · have := hσ.2 _ gap_integer_optimum.1.1
      rwa [gap_integer_optimum.2] at this
    · have := gap_integer_optimum.1.2 _ hσ.1
      rwa [gap_integer_optimum.2] at this
  have h2 : (builtModels gapDemand gapCost gapFixed).modLP.objValue τ = -3 / 2 := by
    apply le_antisymm
    · have := hτ.2 _ gap_relaxed_optimum.1.1
      rwa [gap_relaxed_optimum.2] at this
    · have := gap_relaxed_optimum.1.2 _ hτ.1
      rwa [gap_relaxed_optimum.2] at this
  have hg : percentageGap (-1 : ℚ) (-3 / 2) = some (-50) := by
    norm_num [percentageGap]
  rw [h1, h2, hg]
  refine ⟨rfl, rfl, rfl, ?_⟩
  rintro ⟨g, hg', hpos⟩
  have : g = -50 := by
    simpa using hg'.symm
  rw [this] at hpos
  norm_num at hpos

end UFL

